import Mathlib

/-!
Verification of the WitMotion BLE IMU pipeline (`device_model.py`).

The development embeds the decoding and command-building logic of
`DeviceModel` shallowly:

* bytes are natural numbers (`ℕ`), byte strings are `List ℕ`;
* the Python `int` arithmetic of `getSignInt16` is exact over `ℤ`;
* the floating-point sample arithmetic is idealized over `ℚ`
  (every literal appearing in the source, such as `9.80665`, is an
  exact decimal, and Python's `round(x, n)` is modelled by
  round-half-to-even over `ℚ`);
* the stateful notification handler `onDataReceived` becomes the pure
  drain function `drain` on the buffered byte list, and `processData`
  becomes a pure function from a packet to the list of store writes and
  callback invocations it performs, in source order;
* the `async` command methods (`writeReg`, `unlock`, `save`,
  `set_sampling_rate`, ...) become their traces on the outbound command
  channel: a list of `send` and `settle` (i.e. `asyncio.sleep(0.1)`)
  events, in source order.
-/

attribute [local semireducible] Rat.mul Rat.add Rat.sub Rat.inv Rat.ofScientific

namespace WitMotion

/-! ## Sample store events

`processData` interacts with its surroundings through `self.set(key, value)`
(a write into the `deviceData` dictionary) and `self.callback_method(self)`.
We record those interactions as an event list.  (The `log_packet` file append
on the `0x61` branch is I/O outside the data model and is not recorded.) -/

inductive PEvent where
  | setKey (k : String) (v : ℚ)
  | callback
deriving DecidableEq

def isCallbackEvent : PEvent → Bool
  | PEvent.callback => true
  | PEvent.setKey _ _ => false

def callbackCount (es : List PEvent) : ℕ :=
  (es.filter isCallbackEvent).length

/-- Keys written by an event list, in order. -/
def keysOf (es : List PEvent) : List String :=
  es.filterMap fun e =>
    match e with
    | PEvent.setKey k _ => some k
    | PEvent.callback => none

/-! ## Sign extension and rounding -/

/-- `DeviceModel.getSignInt16`: `if num >= (1 << 15): num -= (1 << 16)`. -/
def getSignInt16 (num : ℕ) : ℤ :=
  if num ≥ 1 <<< 15 then (num : ℤ) - 1 <<< 16 else (num : ℤ)

/-- Floor of a rational as an integer (explicit floor division, so that it
evaluates inside the kernel). -/
def ratFloor (q : ℚ) : ℤ := Int.fdiv q.num q.den

/-- Round-half-to-even to the nearest integer, the tie-breaking rule of
Python's `round`.  (The binary floating-point representation is idealized
by exact rationals.) -/
def roundHalfEven (q : ℚ) : ℤ :=
  if q - ratFloor q < 1 / 2 then ratFloor q
  else if 1 / 2 < q - ratFloor q then ratFloor q + 1
  else if ratFloor q % 2 = 0 then ratFloor q else ratFloor q + 1

/-- Python's `round(x, ndigits)` over exact rationals. -/
def pyRound (ndigits : ℕ) (x : ℚ) : ℚ :=
  (roundHalfEven (x * 10 ^ ndigits) : ℚ) / 10 ^ ndigits

/-! ## Frame decoding (`processData`)

A packet is a byte list; `packet[i]` becomes `p.getD i 0` (every call site
passes a 20-byte packet, so the default is never read on the source's
inputs).  The source combines bytes with `<<` and `|`, reproduced
verbatim with `<<<` and `|||` on `ℕ`. -/

def processData (p : List ℕ) : List PEvent :=
  if p.getD 1 0 = 0x61 then
    let ax_raw := getSignInt16 ((p.getD 3 0 <<< 8) ||| p.getD 2 0)
    let ay_raw := getSignInt16 ((p.getD 5 0 <<< 8) ||| p.getD 4 0)
    let az_raw := getSignInt16 ((p.getD 7 0 <<< 8) ||| p.getD 6 0)
    let Ax : ℚ := (ax_raw : ℚ) / 32768 * 16 * 9.80665
    let Ay : ℚ := (ay_raw : ℚ) / 32768 * 16 * 9.80665
    let Az : ℚ := (az_raw : ℚ) / 32768 * 16 * 9.80665
    let Gx : ℚ := (getSignInt16 (p.getD 8 0 ||| (p.getD 9 0 <<< 8)) : ℚ) / 32768 * 2000
    let Gy : ℚ := (getSignInt16 (p.getD 10 0 ||| (p.getD 11 0 <<< 8)) : ℚ) / 32768 * 2000
    let Gz : ℚ := (getSignInt16 (p.getD 12 0 ||| (p.getD 13 0 <<< 8)) : ℚ) / 32768 * 2000
    let AngX : ℚ := (getSignInt16 (p.getD 14 0 ||| (p.getD 15 0 <<< 8)) : ℚ) / 32768 * 180
    let AngY : ℚ := (getSignInt16 (p.getD 16 0 ||| (p.getD 17 0 <<< 8)) : ℚ) / 32768 * 180
    let AngZ : ℚ := (getSignInt16 (p.getD 18 0 ||| (p.getD 19 0 <<< 8)) : ℚ) / 32768 * 180
    [PEvent.setKey "AccX" (pyRound 3 Ax),
     PEvent.setKey "AccY" (pyRound 3 Ay),
     PEvent.setKey "AccZ" (pyRound 3 Az),
     PEvent.setKey "AsX" (pyRound 3 Gx),
     PEvent.setKey "AsY" (pyRound 3 Gy),
     PEvent.setKey "AsZ" (pyRound 3 Gz),
     PEvent.setKey "AngX" (pyRound 3 AngX),
     PEvent.setKey "AngY" (pyRound 3 AngY),
     PEvent.setKey "AngZ" (pyRound 3 AngZ),
     PEvent.callback]
  else if p.getD 2 0 = 0x3A then
    let Hx : ℚ := (getSignInt16 (p.getD 4 0 ||| (p.getD 5 0 <<< 8)) : ℚ) / 120
    let Hy : ℚ := (getSignInt16 (p.getD 6 0 ||| (p.getD 7 0 <<< 8)) : ℚ) / 120
    let Hz : ℚ := (getSignInt16 (p.getD 8 0 ||| (p.getD 9 0 <<< 8)) : ℚ) / 120
    [PEvent.setKey "HX" (pyRound 3 Hx),
     PEvent.setKey "HY" (pyRound 3 Hy),
     PEvent.setKey "HZ" (pyRound 3 Hz)]
  else if p.getD 2 0 = 0x51 then
    let Q0 : ℚ := (getSignInt16 (p.getD 4 0 ||| (p.getD 5 0 <<< 8)) : ℚ) / 32768
    let Q1 : ℚ := (getSignInt16 (p.getD 6 0 ||| (p.getD 7 0 <<< 8)) : ℚ) / 32768
    let Q2 : ℚ := (getSignInt16 (p.getD 8 0 ||| (p.getD 9 0 <<< 8)) : ℚ) / 32768
    let Q3 : ℚ := (getSignInt16 (p.getD 10 0 ||| (p.getD 11 0 <<< 8)) : ℚ) / 32768
    [PEvent.setKey "Q0" (pyRound 5 Q0),
     PEvent.setKey "Q1" (pyRound 5 Q1),
     PEvent.setKey "Q2" (pyRound 5 Q2),
     PEvent.setKey "Q3" (pyRound 5 Q3)]
  else []

/-- The little-endian 16-bit field of `p` at byte offset `i` (the reading
the spec describes). -/
def le16 (p : List ℕ) (i : ℕ) : ℕ :=
  p.getD i 0 + 256 * p.getD (i + 1) 0

/-! ## Command encoding (`get_readBytes` / `get_writeBytes`) -/

/-- `DeviceModel.get_readBytes`. -/
def get_readBytes (regAddr : ℕ) : List ℕ :=
  [0xff, 0xaa, 0x27, regAddr, 0x00]

/-- `DeviceModel.get_writeBytes`. -/
def get_writeBytes (regAddr rValue : ℕ) : List ℕ :=
  [0xff, 0xaa, regAddr, rValue &&& 0xff, rValue >>> 8]

/-! ## Outbound command traces

Each `async` command method is embedded as the trace of events it emits on
the outbound channel: `send d` for `sendData(d)` (one
`write_gatt_char`), `settle` for `asyncio.sleep(0.1)`. -/

inductive CmdEvent where
  | send (d : List ℕ)
  | settle
deriving DecidableEq

/-- Trace of `DeviceModel.sendData`. -/
def sendData (d : List ℕ) : List CmdEvent := [CmdEvent.send d]

/-- Trace of `DeviceModel.readReg`. -/
def readReg (regAddr : ℕ) : List CmdEvent := sendData (get_readBytes regAddr)

/-- Trace of `DeviceModel.unlock`. -/
def unlock : List CmdEvent := sendData (get_writeBytes 0x69 0xb588)

/-- Trace of `DeviceModel.save`. -/
def save : List CmdEvent := sendData (get_writeBytes 0x00 0x0000)

/-- Trace of `DeviceModel.writeReg`: unlock, sleep, target write, sleep,
save. -/
def writeReg (regAddr sValue : ℕ) : List CmdEvent :=
  unlock ++ [CmdEvent.settle] ++ sendData (get_writeBytes regAddr sValue)
    ++ [CmdEvent.settle] ++ save

/-- Trace of `DeviceModel.set_sampling_rate`: unlock, sleep,
`writeReg(0x03, hz_code)`, sleep, save. -/
def set_sampling_rate (hz_code : ℕ) : List CmdEvent :=
  unlock ++ [CmdEvent.settle] ++ writeReg 0x03 hz_code
    ++ [CmdEvent.settle] ++ save

/-- The byte strings actually written out by a trace, in order. -/
def sentCommands (t : List CmdEvent) : List (List ℕ) :=
  t.filterMap fun e =>
    match e with
    | CmdEvent.send d => some d
    | CmdEvent.settle => none

/-! ## Concrete packets used as witnesses -/

/-- A motion frame whose raw AccX field is `0x4000` and all other fields 0. -/
def motionPacket : List ℕ :=
  [0x55, 0x61, 0x00, 0x40, 0, 0, 0, 0, 0, 0, 0, 0, 0, 0, 0, 0, 0, 0, 0, 0]

/-- A quaternion frame whose raw Q0 field is `0x4000` and all other fields 0. -/
def quatPacket : List ℕ :=
  [0x55, 0x71, 0x51, 0x00, 0x00, 0x40, 0, 0, 0, 0, 0, 0, 0, 0, 0, 0, 0, 0, 0, 0]

/-- An orientation frame with an unknown sub-type discriminator. -/
def unknownPacket : List ℕ :=
  [0x55, 0x71, 0x40, 0x00, 0x00, 0x40, 0, 0, 0, 0, 0, 0, 0, 0, 0, 0, 0, 0, 0, 0]

/-! ## The sample store (`deviceData` dictionary) and frame effects (C10) -/

/-- The `deviceData` dictionary: channel name to last written value,
with unset channels distinguishable (`none`). -/
def Store : Type := String → Option ℚ

/-- `DeviceModel.set`: unconditional overwrite of one key. -/
def setStore (d : Store) (k : String) (v : ℚ) : Store :=
  fun k2 => if k2 = k then some v else d k2

/-- Replay a `processData` event trace against the store (callback events
do not touch the store). -/
def applyEvents (d : Store) : List PEvent → Store
  | [] => d
  | PEvent.setKey k v :: rest => applyEvents (setStore d k v) rest
  | PEvent.callback :: rest => applyEvents d rest

/-- The mutable state of a `DeviceModel`: the reassembly buffer and the
sample store. -/
structure DeviceState where
  buffer : List ℕ
  deviceData : Store

/-- The state effect of `DeviceModel.processData`: it touches only
`deviceData` (the method never reads or writes `_buffer`). -/
def processDataState (s : DeviceState) (p : List ℕ) : DeviceState :=
  { buffer := s.buffer, deviceData := applyEvents s.deviceData (processData p) }

/-- Channel names written by a motion frame (gyro rates are stored under
the `As*` names). -/
def motionKeys : List String :=
  ["AccX", "AccY", "AccZ", "AsX", "AsY", "AsZ", "AngX", "AngY", "AngZ"]

/-- Channel names written by a magnetometer frame. -/
def magKeys : List String := ["HX", "HY", "HZ"]

/-- Channel names written by a quaternion frame. -/
def quatKeys : List String := ["Q0", "Q1", "Q2", "Q3"]

/-! ## The extraction loop (`onDataReceived` drain)

`onDataReceived` appends the incoming bytes to `_buffer`, then loops:
while at least 20 bytes are buffered, it pops one byte when the head is
not `0x55` or the second byte is not in `[0x61, 0x71]`, and otherwise
removes a 20-byte packet and hands it to `processData`.  `drain` is that
loop as a function of the buffered bytes: it returns the packets handed
on (in order), the final buffer, and the number of single-byte drops. -/

structure DrainRes where
  packets : List (List ℕ)
  residual : List ℕ
  drops : ℕ
deriving DecidableEq

def drain (b : List ℕ) : DrainRes :=
  if h : 20 ≤ b.length then
    if b.getD 0 0 ≠ 0x55 then
      let r := drain b.tail
      ⟨r.packets, r.residual, r.drops + 1⟩
    else if b.getD 1 0 ∉ ([0x61, 0x71] : List ℕ) then
      let r := drain b.tail
      ⟨r.packets, r.residual, r.drops + 1⟩
    else
      let r := drain (b.drop 20)
      ⟨b.take 20 :: r.packets, r.residual, r.drops⟩
  else
    ⟨[], b, 0⟩
termination_by b.length
decreasing_by
  all_goals simp [List.length_tail, List.length_drop]
  all_goals omega

/-- The chunked feed: `onDataReceived` applied to each chunk in turn
starting from buffer `buf`; returns the packets extracted (in order)
and the final buffer. -/
def feedChunks (buf : List ℕ) : List (List ℕ) → List (List ℕ) × List ℕ
  | [] => ([], buf)
  | c :: cs =>
    ((drain (buf ++ c)).packets ++ (feedChunks (drain (buf ++ c)).residual cs).1,
     (feedChunks (drain (buf ++ c)).residual cs).2)

/-- A well-formed frame: 20 bytes, header `0x55`, type in {`0x61`,`0x71`}. -/
def validFrame (f : List ℕ) : Prop :=
  f.length = 20 ∧ f.getD 0 0 = 0x55 ∧ f.getD 1 0 ∈ ([0x61, 0x71] : List ℕ)

instance (f : List ℕ) : Decidable (validFrame f) := by
  unfold validFrame
  infer_instance

/-! ## Helper lemmas -/

lemma shiftLeft_lor_eq (h lo : ℕ) (hlo : lo < 256) :
    (h <<< 8) ||| lo = lo + 256 * h := by
  have hor := Nat.mul_add_lt_is_or (i := 8) (show lo < 2 ^ 8 by omega) h
  have hs : h <<< 8 = 2 ^ 8 * h := by rw [Nat.shiftLeft_eq, Nat.mul_comm]
  have hp : (2 : ℕ) ^ 8 = 256 := by norm_num
  rw [hs, ← hor, hp]
  omega

lemma lor_shiftLeft_eq (lo h : ℕ) (hlo : lo < 256) :
    lo ||| (h <<< 8) = lo + 256 * h := by
  rw [Nat.lor_comm]
  exact shiftLeft_lor_eq h lo hlo

lemma getD_lt_of_forall {p : List ℕ} (h : ∀ x ∈ p, x < 256) (i : ℕ) :
    p.getD i 0 < 256 := by
  by_cases hi : i < p.length
  · rw [List.getD_eq_getElem _ _ hi]
    exact h _ (List.getElem_mem hi)
  · rw [List.getD_eq_default _ _ (Nat.le_of_not_lt hi)]
    omega

lemma applyEvents_not_mem (d : Store) (es : List PEvent) (k : String)
    (h : k ∉ keysOf es) : applyEvents d es k = d k := by
  induction es generalizing d with
  | nil => rfl
  | cons e rest ih =>
    cases e with
    | setKey k2 v =>
      have hks : keysOf (PEvent.setKey k2 v :: rest) = k2 :: keysOf rest := rfl
      rw [hks] at h
      simp only [List.mem_cons, not_or] at h
      simp only [applyEvents]
      rw [ih _ h.2]
      simp [setStore, h.1]
    | callback =>
      have hks : keysOf (PEvent.callback :: rest) = keysOf rest := rfl
      rw [hks] at h
      simp only [applyEvents]
      exact ih _ h

lemma applyEvents_mem (d : Store) (es : List PEvent) (k : String)
    (h : k ∈ keysOf es) : ∃ v, applyEvents d es k = some v := by
  induction es generalizing d with
  | nil => simp [keysOf] at h
  | cons e rest ih =>
    cases e with
    | setKey k2 v =>
      by_cases hr : k ∈ keysOf rest
      · exact ih _ hr
      · have hks : keysOf (PEvent.setKey k2 v :: rest) = k2 :: keysOf rest := rfl
        rw [hks] at h
        have hk : k = k2 := by
          rcases List.mem_cons.mp h with h1 | h2
          · exact h1
          · exact absurd h2 hr
        simp only [applyEvents]
        rw [applyEvents_not_mem _ _ _ hr]
        exact ⟨v, by simp [setStore, hk]⟩
    | callback =>
      have hks : keysOf (PEvent.callback :: rest) = keysOf rest := rfl
      rw [hks] at h
      simp only [applyEvents]
      exact ih _ h

lemma keysOf_motion (p : List ℕ) (h61 : p.getD 1 0 = 0x61) :
    keysOf (processData p) = motionKeys := by
  simp only [processData]
  rw [if_pos h61]
  rfl

lemma keysOf_mag (p : List ℕ) (h61 : ¬ p.getD 1 0 = 0x61)
    (h3A : p.getD 2 0 = 0x3A) : keysOf (processData p) = magKeys := by
  simp only [processData]
  rw [if_neg h61, if_pos h3A]
  rfl

lemma keysOf_quat (p : List ℕ) (h61 : ¬ p.getD 1 0 = 0x61)
    (h3A : ¬ p.getD 2 0 = 0x3A) (h51 : p.getD 2 0 = 0x51) :
    keysOf (processData p) = quatKeys := by
  simp only [processData]
  rw [if_neg h61, if_neg h3A, if_pos h51]
  rfl

lemma processData_unknown (p : List ℕ) (h61 : ¬ p.getD 1 0 = 0x61)
    (h3A : ¬ p.getD 2 0 = 0x3A) (h51 : ¬ p.getD 2 0 = 0x51) :
    processData p = [] := by
  simp only [processData]
  rw [if_neg h61, if_neg h3A, if_neg h51]

lemma drain_short {b : List ℕ} (h : b.length < 20) : drain b = ⟨[], b, 0⟩ := by
  rw [drain.eq_def, dif_neg (by omega)]

lemma drain_drop1 {b : List ℕ} (h20 : 20 ≤ b.length)
    (hdrop : b.getD 0 0 ≠ 0x55 ∨ b.getD 1 0 ∉ ([0x61, 0x71] : List ℕ)) :
    drain b = ⟨(drain b.tail).packets, (drain b.tail).residual,
               (drain b.tail).drops + 1⟩ := by
  rw [drain.eq_def, dif_pos h20]
  rcases hdrop with h | h
  · rw [if_pos h]
  · by_cases h0 : b.getD 0 0 ≠ 0x55
    · rw [if_pos h0]
    · rw [if_neg h0, if_pos h]

lemma drain_frame {b : List ℕ} (h20 : 20 ≤ b.length)
    (h0 : b.getD 0 0 = 0x55) (h1 : b.getD 1 0 ∈ ([0x61, 0x71] : List ℕ)) :
    drain b = ⟨b.take 20 :: (drain (b.drop 20)).packets,
               (drain (b.drop 20)).residual, (drain (b.drop 20)).drops⟩ := by
  rw [drain.eq_def, dif_pos h20, if_neg (fun hc => hc h0),
      if_neg (fun hc => hc h1)]

lemma drain_invariant_aux :
    ∀ (n : ℕ) (b : List ℕ), b.length ≤ n →
      (drain b).residual.length < 20
      ∧ b.length = (drain b).drops + 20 * (drain b).packets.length
          + (drain b).residual.length := by
  intro n
  induction n with
  | zero =>
    intro b hb
    rw [drain_short (by omega)]
    refine ⟨?_, ?_⟩
    · dsimp only
      omega
    · dsimp only [List.length_nil]
      omega
  | succ n ih =>
    intro b hb
    by_cases h20 : 20 ≤ b.length
    · by_cases h0 : b.getD 0 0 = 0x55
      · by_cases h1 : b.getD 1 0 ∈ ([0x61, 0x71] : List ℕ)
        · rw [drain_frame h20 h0 h1]
          have hd : (b.drop 20).length ≤ n := by
            rw [List.length_drop]; omega
          have := ih (b.drop 20) hd
          have hlen : (b.drop 20).length = b.length - 20 := List.length_drop 20 b
          constructor
          · exact this.1
          · have h2 := this.2
            rw [hlen] at h2
            dsimp only [List.length_cons]
            omega
        · rw [drain_drop1 h20 (Or.inr h1)]
          have ht : b.tail.length ≤ n := by rw [List.length_tail]; omega
          have := ih b.tail ht
          have hlen : b.tail.length = b.length - 1 := List.length_tail b
          constructor
          · exact this.1
          · have h2 := this.2
            rw [hlen] at h2
            dsimp only
            omega
      · rw [drain_drop1 h20 (Or.inl h0)]
        have ht : b.tail.length ≤ n := by rw [List.length_tail]; omega
        have := ih b.tail ht
        have hlen : b.tail.length = b.length - 1 := List.length_tail b
        constructor
        · exact this.1
        · have h2 := this.2
          rw [hlen] at h2
          dsimp only
          omega
    · rw [drain_short (by omega)]
      refine ⟨?_, ?_⟩
      · dsimp only
        omega
      · dsimp only [List.length_nil]
        omega

lemma drain_residual_lt (b : List ℕ) : (drain b).residual.length < 20 :=
  (drain_invariant_aux b.length b le_rfl).1

lemma drain_conservation (b : List ℕ) :
    b.length = (drain b).drops + 20 * (drain b).packets.length
      + (drain b).residual.length :=
  (drain_invariant_aux b.length b le_rfl).2

lemma drain_append_aux :
    ∀ (n : ℕ) (b : List ℕ), b.length ≤ n → ∀ c : List ℕ,
      drain (b ++ c)
        = ⟨(drain b).packets ++ (drain ((drain b).residual ++ c)).packets,
           (drain ((drain b).residual ++ c)).residual,
           (drain b).drops + (drain ((drain b).residual ++ c)).drops⟩ := by
  intro n
  induction n with
  | zero =>
    intro b hb c
    have hb0 : b = [] := List.length_eq_zero.mp (by omega)
    subst hb0
    rw [drain_short (b := []) (by simp)]
    dsimp only
    simp only [List.nil_append, Nat.zero_add]
  | succ n ih =>
    intro b hb c
    by_cases h20 : 20 ≤ b.length
    · have hbc : 20 ≤ (b ++ c).length := by
        rw [List.length_append]; omega
      have hg0 : (b ++ c).getD 0 0 = b.getD 0 0 :=
        List.getD_append _ _ _ _ (by omega)
      have hg1 : (b ++ c).getD 1 0 = b.getD 1 0 :=
        List.getD_append _ _ _ _ (by omega)
      have hne : b ≠ [] := by
        intro h
        rw [h] at h20
        simp at h20
      by_cases h0 : b.getD 0 0 = 0x55
      · by_cases h1 : b.getD 1 0 ∈ ([0x61, 0x71] : List ℕ)
        · rw [drain_frame hbc (by rw [hg0]; exact h0) (by rw [hg1]; exact h1),
              drain_frame h20 h0 h1]
          rw [List.take_append_of_le_length h20,
              List.drop_append_of_le_length h20]
          have hd : (b.drop 20).length ≤ n := by
            rw [List.length_drop]; omega
          rw [ih (b.drop 20) hd c]
          dsimp only
          simp only [List.cons_append]
        · rw [drain_drop1 hbc (Or.inr (by rw [hg1]; exact h1)),
              drain_drop1 h20 (Or.inr h1)]
          rw [List.tail_append_of_ne_nil hne]
          have ht : b.tail.length ≤ n := by
            rw [List.length_tail]; omega
          rw [ih b.tail ht c]
          dsimp only
          congr 1
          omega
      · rw [drain_drop1 hbc (Or.inl (by rw [hg0]; exact h0)),
            drain_drop1 h20 (Or.inl h0)]
        rw [List.tail_append_of_ne_nil hne]
        have ht : b.tail.length ≤ n := by
          rw [List.length_tail]; omega
        rw [ih b.tail ht c]
        dsimp only
        congr 1
        omega
    · rw [drain_short (show b.length < 20 by omega)]
      dsimp only
      simp only [Nat.zero_add]
      rfl

lemma drain_append (b c : List ℕ) :
    drain (b ++ c)
      = ⟨(drain b).packets ++ (drain ((drain b).residual ++ c)).packets,
         (drain ((drain b).residual ++ c)).residual,
         (drain b).drops + (drain ((drain b).residual ++ c)).drops⟩ :=
  drain_append_aux b.length b le_rfl c

lemma feedChunks_eq :
    ∀ (chunks : List (List ℕ)) (buf : List ℕ), buf.length < 20 →
      feedChunks buf chunks
        = ((drain (buf ++ chunks.flatten)).packets,
           (drain (buf ++ chunks.flatten)).residual) := by
  intro chunks
  induction chunks with
  | nil =>
    intro buf hb
    simp only [feedChunks, List.flatten_nil, List.append_nil]
    rw [drain_short hb]
  | cons c cs ih =>
    intro buf hb
    simp only [feedChunks, List.flatten_cons]
    rw [ih _ (drain_residual_lt _)]
    have happ := drain_append (buf ++ c) cs.flatten
    rw [← List.append_assoc, happ]

/-! ## Claims about the command protocol -/

/-- C9: Command encoding.  `get_readBytes` returns exactly
`[0xFF,0xAA,0x27,regAddr,0x00]` and `get_writeBytes` returns exactly
`[0xFF,0xAA,regAddr, value AND 0xFF, value SHR 8]`, which for every value
are the little-endian bytes `value % 256` and `value / 256`; both are pure
and total, and the two concrete examples of the spec evaluate as stated. -/
theorem command_encoding (regAddr rValue : ℕ) :
    get_readBytes regAddr = [0xff, 0xaa, 0x27, regAddr, 0x00]
    ∧ get_writeBytes regAddr rValue
        = [0xff, 0xaa, regAddr, rValue &&& 0xff, rValue >>> 8]
    ∧ get_writeBytes regAddr rValue
        = [0xff, 0xaa, regAddr, rValue % 256, rValue / 256]
    ∧ get_writeBytes 0x03 0x09 = [0xff, 0xaa, 0x03, 0x09, 0x00]
    ∧ get_readBytes 0x51 = [0xff, 0xaa, 0x27, 0x51, 0x00] := by
  refine ⟨rfl, rfl, ?_, by decide, by decide⟩
  have h1 : rValue &&& 0xff = rValue % 256 := by
    have := Nat.and_pow_two_sub_one_eq_mod rValue 8
    simpa using this
  have h2 : rValue >>> 8 = rValue / 256 := by
    have := Nat.shiftRight_eq_div_pow rValue 8
    simpa using this
  simp [get_writeBytes, h1, h2]

/-- C3: Persisted write ordering.  For every register address and value,
`writeReg` emits exactly three outbound writes, in order unlock
(register `0x69`, value `0xB588`), target write, save (register `0x00`,
value `0x0000`), with a settle wait between consecutive writes; in
particular `writeReg 0x03 0x09` emits
`[unlock, write(0x03,0x09), save]`. -/
theorem persistWrite_ordering (regAddr sValue : ℕ) :
    writeReg regAddr sValue
      = [CmdEvent.send (get_writeBytes 0x69 0xb588), CmdEvent.settle,
         CmdEvent.send (get_writeBytes regAddr sValue), CmdEvent.settle,
         CmdEvent.send (get_writeBytes 0x00 0x0000)]
    ∧ sentCommands (writeReg regAddr sValue)
      = [get_writeBytes 0x69 0xb588, get_writeBytes regAddr sValue,
         get_writeBytes 0x00 0x0000]
    ∧ (sentCommands (writeReg regAddr sValue)).length = 3
    ∧ get_writeBytes 0x69 0xb588 = [0xff, 0xaa, 0x69, 0x88, 0xb5]
    ∧ get_writeBytes 0x00 0x0000 = [0xff, 0xaa, 0x00, 0x00, 0x00]
    ∧ sentCommands (writeReg 0x03 0x09)
      = [[0xff, 0xaa, 0x69, 0x88, 0xb5], [0xff, 0xaa, 0x03, 0x09, 0x00],
         [0xff, 0xaa, 0x00, 0x00, 0x00]] := by
  refine ⟨rfl, rfl, rfl, by decide, by decide, by decide⟩

/-- C6 counterexample: `set_sampling_rate 0x09` does NOT emit the same
outbound command sequence as `writeReg 0x03 0x09`: the former wraps the
latter in a second unlock and a second save, so the sequences differ. -/
theorem set_sampling_rate_not_writeReg :
    sentCommands (set_sampling_rate 0x09) ≠ sentCommands (writeReg 0x03 0x09)
    ∧ (sentCommands (set_sampling_rate 0x09)).length = 5 := by
  exact ⟨by decide, by decide⟩

/-- C6 amended: `set_sampling_rate code` is `unlock`, settle, the full
`writeReg 0x03 code` handshake, settle, `save`; on the outbound channel it
emits five writes `[unlock, unlock, write(0x03,code), save, save]` — a
strict superset of the `writeReg` sequence, not the same sequence. -/
theorem set_sampling_rate_trace (code : ℕ) :
    set_sampling_rate code
      = unlock ++ [CmdEvent.settle] ++ writeReg 0x03 code
          ++ [CmdEvent.settle] ++ save
    ∧ sentCommands (set_sampling_rate code)
      = [get_writeBytes 0x69 0xb588, get_writeBytes 0x69 0xb588,
         get_writeBytes 0x03 code, get_writeBytes 0x00 0x0000,
         get_writeBytes 0x00 0x0000]
    ∧ (sentCommands (set_sampling_rate code)).length = 5 := by
  exact ⟨rfl, rfl, rfl⟩

/-! ## Claims about frame decoding -/

/-- C2: Motion frame decoding.  For a 20-byte frame of bytes whose type byte
is `0x61`, the payload is read as nine little-endian int16 fields at byte
offsets 2,4,...,18 in the order AccX, AccY, AccZ, gyro X/Y/Z, angle X/Y/Z,
converted by `sign16(raw)/32768*16*9.80665`, `sign16(raw)/32768*2000` and
`sign16(raw)/32768*180` respectively (stored at 3-decimal presentation);
`getSignInt16` is exactly the claimed sign extension, and raw AccX `0x4000`
gives `16384/32768*16*9.80665 = 78.4532`, which presents as `78.453`. -/
theorem motion_decode (p : List ℕ) (hlen : p.length = 20)
    (hbytes : ∀ x ∈ p, x < 256) (ht : p.getD 1 0 = 0x61) :
    processData p =
      [PEvent.setKey "AccX" (pyRound 3 ((getSignInt16 (le16 p 2) : ℚ) / 32768 * 16 * 9.80665)),
       PEvent.setKey "AccY" (pyRound 3 ((getSignInt16 (le16 p 4) : ℚ) / 32768 * 16 * 9.80665)),
       PEvent.setKey "AccZ" (pyRound 3 ((getSignInt16 (le16 p 6) : ℚ) / 32768 * 16 * 9.80665)),
       PEvent.setKey "AsX" (pyRound 3 ((getSignInt16 (le16 p 8) : ℚ) / 32768 * 2000)),
       PEvent.setKey "AsY" (pyRound 3 ((getSignInt16 (le16 p 10) : ℚ) / 32768 * 2000)),
       PEvent.setKey "AsZ" (pyRound 3 ((getSignInt16 (le16 p 12) : ℚ) / 32768 * 2000)),
       PEvent.setKey "AngX" (pyRound 3 ((getSignInt16 (le16 p 14) : ℚ) / 32768 * 180)),
       PEvent.setKey "AngY" (pyRound 3 ((getSignInt16 (le16 p 16) : ℚ) / 32768 * 180)),
       PEvent.setKey "AngZ" (pyRound 3 ((getSignInt16 (le16 p 18) : ℚ) / 32768 * 180)),
       PEvent.callback]
    ∧ (∀ raw : ℕ, getSignInt16 raw
        = if raw ≥ 32768 then (raw : ℤ) - 65536 else (raw : ℤ))
    ∧ getSignInt16 0x4000 = 16384
    ∧ (16384 : ℚ) / 32768 * 16 * 9.80665 = 78.4532
    ∧ pyRound 3 78.4532 = 78.453 := by
  have hb := fun i => getD_lt_of_forall hbytes i
  refine ⟨?_, ?_, by decide, by norm_num, by decide⟩
  · simp only [processData]
    rw [if_pos ht]
    rw [shiftLeft_lor_eq _ _ (hb 2), shiftLeft_lor_eq _ _ (hb 4),
        shiftLeft_lor_eq _ _ (hb 6), lor_shiftLeft_eq _ _ (hb 8),
        lor_shiftLeft_eq _ _ (hb 10), lor_shiftLeft_eq _ _ (hb 12),
        lor_shiftLeft_eq _ _ (hb 14), lor_shiftLeft_eq _ _ (hb 16),
        lor_shiftLeft_eq _ _ (hb 18)]
    simp only [le16]
  · intro raw
    simp only [getSignInt16]
    have h15 : (1 <<< 15 : ℕ) = 32768 := by decide
    have h16 : (1 <<< 16 : ℕ) = 65536 := by decide
    rw [h15, h16]
    norm_num

/-- C2 witness: the motion decode theorem applied to `motionPacket`
(raw AccX `0x4000`), with the resulting trace fully evaluated. -/
theorem motion_decode_witness :
    motionPacket.length = 20 ∧ (∀ x ∈ motionPacket, x < 256)
    ∧ motionPacket.getD 1 0 = 0x61
    ∧ processData motionPacket
      = [PEvent.setKey "AccX" (78.453 : ℚ), PEvent.setKey "AccY" 0,
         PEvent.setKey "AccZ" 0, PEvent.setKey "AsX" 0, PEvent.setKey "AsY" 0,
         PEvent.setKey "AsZ" 0, PEvent.setKey "AngX" 0, PEvent.setKey "AngY" 0,
         PEvent.setKey "AngZ" 0, PEvent.callback] := by
  refine ⟨rfl, by decide, rfl, ?_⟩
  have h := (motion_decode motionPacket rfl (by decide) rfl).1
  rw [h]
  decide

/-- C7: Orientation frame decoding.  For a 20-byte frame of bytes whose type
byte is `0x71`, payload byte 0 (packet byte 2) selects the sub-type: `0x3A`
produces HX,HY,HZ from the little-endian int16 fields at packet offsets
4,6,8 each divided by 120; `0x51` produces Q0..Q3 from the fields at packet
offsets 4,6,8,10 each divided by 32768; any other discriminator produces
nothing; raw Q0 `0x4000` decodes to `16384/32768 = 0.5`. -/
theorem orientation_decode (p : List ℕ) (hlen : p.length = 20)
    (hbytes : ∀ x ∈ p, x < 256) (ht : p.getD 1 0 = 0x71) :
    (p.getD 2 0 = 0x3A → processData p =
      [PEvent.setKey "HX" (pyRound 3 ((getSignInt16 (le16 p 4) : ℚ) / 120)),
       PEvent.setKey "HY" (pyRound 3 ((getSignInt16 (le16 p 6) : ℚ) / 120)),
       PEvent.setKey "HZ" (pyRound 3 ((getSignInt16 (le16 p 8) : ℚ) / 120))])
    ∧ (p.getD 2 0 = 0x51 → processData p =
      [PEvent.setKey "Q0" (pyRound 5 ((getSignInt16 (le16 p 4) : ℚ) / 32768)),
       PEvent.setKey "Q1" (pyRound 5 ((getSignInt16 (le16 p 6) : ℚ) / 32768)),
       PEvent.setKey "Q2" (pyRound 5 ((getSignInt16 (le16 p 8) : ℚ) / 32768)),
       PEvent.setKey "Q3" (pyRound 5 ((getSignInt16 (le16 p 10) : ℚ) / 32768))])
    ∧ (p.getD 2 0 ≠ 0x3A → p.getD 2 0 ≠ 0x51 → processData p = [])
    ∧ (16384 : ℚ) / 32768 = 0.5
    ∧ pyRound 5 ((16384 : ℚ) / 32768) = 0.5 := by
  have hb := fun i => getD_lt_of_forall hbytes i
  have h61 : ¬ p.getD 1 0 = 0x61 := by rw [ht]; decide
  refine ⟨?_, ?_, ?_, by norm_num, by decide⟩
  · intro hd
    simp only [processData]
    rw [if_neg h61, if_pos hd]
    rw [lor_shiftLeft_eq _ _ (hb 4), lor_shiftLeft_eq _ _ (hb 6),
        lor_shiftLeft_eq _ _ (hb 8)]
    simp only [le16]
  · intro hd
    have h3A : ¬ p.getD 2 0 = 0x3A := by rw [hd]; decide
    simp only [processData]
    rw [if_neg h61, if_neg h3A, if_pos hd]
    rw [lor_shiftLeft_eq _ _ (hb 4), lor_shiftLeft_eq _ _ (hb 6),
        lor_shiftLeft_eq _ _ (hb 8), lor_shiftLeft_eq _ _ (hb 10)]
    simp only [le16]
  · intro h3A h51
    simp only [processData]
    rw [if_neg h61, if_neg h3A, if_neg h51]

/-- C7 witness: the orientation decode theorem applied to `quatPacket`
(raw Q0 `0x4000`) and to `unknownPacket` (discriminator `0x40`). -/
theorem orientation_decode_witness :
    quatPacket.length = 20 ∧ (∀ x ∈ quatPacket, x < 256)
    ∧ quatPacket.getD 1 0 = 0x71 ∧ quatPacket.getD 2 0 = 0x51
    ∧ processData quatPacket
      = [PEvent.setKey "Q0" (0.5 : ℚ), PEvent.setKey "Q1" 0,
         PEvent.setKey "Q2" 0, PEvent.setKey "Q3" 0]
    ∧ processData unknownPacket = [] := by
  refine ⟨rfl, by decide, rfl, rfl, ?_, ?_⟩
  · have h := (orientation_decode quatPacket rfl (by decide) rfl).2.1 rfl
    rw [h]
    decide
  · exact (orientation_decode unknownPacket rfl (by decide) rfl).2.2.1
      (by decide) (by decide)

/-! ## Claims about callback discipline (C5) -/

/-- C5 counterexample: `quatPacket` is a decoded Quaternion frame — its
sample is written to the store (channels Q0..Q3) — yet the consumer
callback is invoked zero times, not once: the source only invokes
`callback_method` on the `0x61` branch. -/
theorem callback_missing_for_quaternion :
    quatPacket.getD 1 0 = 0x71 ∧ quatPacket.getD 2 0 = 0x51
    ∧ keysOf (processData quatPacket) = ["Q0", "Q1", "Q2", "Q3"]
    ∧ callbackCount (processData quatPacket) = 0 := by
  decide

/-- C5 amended: every decoded Motion (`0x61`) sample is written into the
store and then the callback is invoked synchronously exactly once, after
all nine store writes; frames with any other type byte (in particular
Quaternion and Magnetometer frames) produce their store writes with no
callback invocation. -/
theorem callback_once_per_motion_frame (p : List ℕ) (hlen : p.length = 20) :
    (p.getD 1 0 = 0x61 →
       callbackCount (processData p) = 1
       ∧ processData p = (processData p).dropLast ++ [PEvent.callback]
       ∧ ∀ e ∈ (processData p).dropLast, isCallbackEvent e = false)
    ∧ (p.getD 1 0 ≠ 0x61 → callbackCount (processData p) = 0) := by
  constructor
  · intro h61
    simp only [processData]
    rw [if_pos h61]
    refine ⟨by simp [callbackCount, isCallbackEvent], by simp, ?_⟩
    simp [isCallbackEvent]
  · intro h61
    simp only [processData]
    rw [if_neg h61]
    by_cases h3A : p.getD 2 0 = 0x3A
    · rw [if_pos h3A]
      simp [callbackCount, isCallbackEvent]
    · rw [if_neg h3A]
      by_cases h51 : p.getD 2 0 = 0x51
      · rw [if_pos h51]
        simp [callbackCount, isCallbackEvent]
      · rw [if_neg h51]
        simp [callbackCount]

/-- C5 witness: the amended callback theorem applied to `motionPacket`. -/
theorem callback_once_witness :
    motionPacket.length = 20
    ∧ callbackCount (processData motionPacket) = 1 :=
  ⟨rfl, ((callback_once_per_motion_frame motionPacket rfl).1 rfl).1⟩

/-- C10: Frame effect on the sample store.  `processData` never touches the
reassembly buffer; a `0x61` frame writes exactly the nine channels
AccX/AccY/AccZ/AsX/AsY/AsZ/AngX/AngY/AngZ (the gyro rates are stored under
the `As*` names); a `0x71` frame with discriminator `0x3A` writes exactly
HX/HY/HZ, with `0x51` exactly Q0/Q1/Q2/Q3, and with any other discriminator
nothing; every channel outside the written set keeps its previous value. -/
theorem frame_effect (p : List ℕ) (s : DeviceState) (hlen : p.length = 20) :
    (processDataState s p).buffer = s.buffer
    ∧ (p.getD 1 0 = 0x61 →
        keysOf (processData p) = motionKeys
        ∧ (∀ k, k ∉ motionKeys →
            (processDataState s p).deviceData k = s.deviceData k)
        ∧ (∀ k ∈ motionKeys, ∃ v,
            (processDataState s p).deviceData k = some v))
    ∧ (p.getD 1 0 = 0x71 → p.getD 2 0 = 0x3A →
        keysOf (processData p) = magKeys
        ∧ (∀ k, k ∉ magKeys →
            (processDataState s p).deviceData k = s.deviceData k)
        ∧ (∀ k ∈ magKeys, ∃ v,
            (processDataState s p).deviceData k = some v))
    ∧ (p.getD 1 0 = 0x71 → p.getD 2 0 = 0x51 →
        keysOf (processData p) = quatKeys
        ∧ (∀ k, k ∉ quatKeys →
            (processDataState s p).deviceData k = s.deviceData k)
        ∧ (∀ k ∈ quatKeys, ∃ v,
            (processDataState s p).deviceData k = some v))
    ∧ (p.getD 1 0 = 0x71 → p.getD 2 0 ≠ 0x3A → p.getD 2 0 ≠ 0x51 →
        ∀ k, (processDataState s p).deviceData k = s.deviceData k) := by
  refine ⟨rfl, ?_, ?_, ?_, ?_⟩
  · intro h61
    have hks := keysOf_motion p h61
    refine ⟨hks, ?_, ?_⟩
    · intro k hk
      exact applyEvents_not_mem _ _ _ (by rw [hks]; exact hk)
    · intro k hk
      exact applyEvents_mem _ _ _ (by rw [hks]; exact hk)
  · intro h71 h3A
    have h61 : ¬ p.getD 1 0 = 0x61 := by rw [h71]; decide
    have hks := keysOf_mag p h61 h3A
    refine ⟨hks, ?_, ?_⟩
    · intro k hk
      exact applyEvents_not_mem _ _ _ (by rw [hks]; exact hk)
    · intro k hk
      exact applyEvents_mem _ _ _ (by rw [hks]; exact hk)
  · intro h71 h51
    have h61 : ¬ p.getD 1 0 = 0x61 := by rw [h71]; decide
    have h3A : ¬ p.getD 2 0 = 0x3A := by rw [h51]; decide
    have hks := keysOf_quat p h61 h3A h51
    refine ⟨hks, ?_, ?_⟩
    · intro k hk
      exact applyEvents_not_mem _ _ _ (by rw [hks]; exact hk)
    · intro k hk
      exact applyEvents_mem _ _ _ (by rw [hks]; exact hk)
  · intro h71 h3A h51
    have h61 : ¬ p.getD 1 0 = 0x61 := by rw [h71]; decide
    intro k
    show applyEvents s.deviceData (processData p) k = s.deviceData k
    rw [processData_unknown p h61 h3A h51]
    rfl

/-- C10 witness: the frame-effect theorem applied to `quatPacket` on a
state with a non-empty buffer and an empty store. -/
theorem frame_effect_witness :
    (processDataState ⟨[0x11], fun _ => none⟩ quatPacket).buffer = [0x11]
    ∧ keysOf (processData quatPacket) = quatKeys
    ∧ (∀ k, k ∉ quatKeys →
        (processDataState ⟨[0x11], fun _ => none⟩ quatPacket).deviceData k = none)
    ∧ (∀ k ∈ quatKeys, ∃ v,
        (processDataState ⟨[0x11], fun _ => none⟩ quatPacket).deviceData k = some v) := by
  have h := frame_effect quatPacket ⟨[0x11], fun _ => none⟩ rfl
  obtain ⟨hbuf, _, _, hq, _⟩ := h
  have hq2 := hq rfl rfl
  exact ⟨hbuf, hq2.1, fun k hk => hq2.2.1 k hk, hq2.2.2⟩

/-- C1: Fragmentation invariance.  For any sequence of valid frames
serialized to bytes and any way of splitting those bytes into consecutive
chunks fed one at a time to the append/drain handler, the ordered packet
sequence — and hence the ordered sequence of decoded samples — is the same
as feeding the whole byte sequence in a single call. -/
theorem fragmentation_invariance (frames chunks : List (List ℕ))
    (hframes : ∀ f ∈ frames, validFrame f)
    (hsplit : chunks.flatten = frames.flatten) :
    (feedChunks [] chunks).1 = (feedChunks [] [frames.flatten]).1
    ∧ ((feedChunks [] chunks).1).map processData
      = ((feedChunks [] [frames.flatten]).1).map processData := by
  have h1 := feedChunks_eq chunks [] (by simp)
  have h2 := feedChunks_eq [frames.flatten] [] (by simp)
  have hj : ([frames.flatten] : List (List ℕ)).flatten = frames.flatten := by
    simp
  rw [h1, h2, hj, hsplit]
  exact ⟨rfl, rfl⟩

/-- C4: Resync correctness.  For K garbage bytes containing no false
header+type match, followed by a valid 20-byte frame, the extraction loop
performs exactly K single-byte drops, extracts exactly that frame with an
empty residue, and the decoded sample sequence is identical to the
no-garbage case. -/
theorem resync_correct (g f : List ℕ) (hf : validFrame f)
    (hg : ∀ i, i + 1 < g.length →
      ¬(g.getD i 0 = 0x55 ∧ g.getD (i + 1) 0 ∈ ([0x61, 0x71] : List ℕ))) :
    drain (g ++ f) = ⟨[f], [], g.length⟩
    ∧ drain f = ⟨[f], [], 0⟩
    ∧ ((drain (g ++ f)).packets).map processData
      = ((drain f).packets).map processData := by
  obtain ⟨hfl, hf0, hf1⟩ := hf
  have hdf : drain f = ⟨[f], [], 0⟩ := by
    rw [drain_frame (by omega) hf0 hf1]
    rw [List.take_of_length_le (by omega), List.drop_of_length_le (by omega)]
    rw [drain_short (b := []) (by simp)]
  have main : ∀ g2 : List ℕ,
      (∀ i, i + 1 < g2.length →
        ¬(g2.getD i 0 = 0x55 ∧ g2.getD (i + 1) 0 ∈ ([0x61, 0x71] : List ℕ))) →
      drain (g2 ++ f) = ⟨[f], [], g2.length⟩ := by
    intro g2
    induction g2 with
    | nil =>
      intro _
      rw [List.nil_append]
      exact hdf
    | cons a g3 ih =>
      intro hga
      have hlen : 20 ≤ (a :: (g3 ++ f)).length := by
        simp only [List.length_cons, List.length_append]
        omega
      have hga3 : ∀ i, i + 1 < g3.length →
          ¬(g3.getD i 0 = 0x55 ∧ g3.getD (i + 1) 0 ∈ ([0x61, 0x71] : List ℕ)) := by
        intro i hi
        have := hga (i + 1) (by simp only [List.length_cons]; omega)
        simpa using this
      by_cases ha : a = 0x55
      · have h2 : (g3 ++ f).getD 0 0 ∉ ([0x61, 0x71] : List ℕ) := by
          cases g3 with
          | nil =>
            rw [List.nil_append]
            rw [hf0]
            decide
          | cons x g4 =>
            have hx := hga 0 (by simp only [List.length_cons]; omega)
            rw [List.getD_cons_zero, List.getD_cons_succ, List.getD_cons_zero] at hx
            have : x ∉ ([0x61, 0x71] : List ℕ) := by
              intro hmem
              exact hx ⟨ha, hmem⟩
            rw [List.cons_append, List.getD_cons_zero]
            exact this
        have hcond : (a :: (g3 ++ f)).getD 1 0 ∉ ([0x61, 0x71] : List ℕ) := by
          rw [List.getD_cons_succ]
          exact h2
        rw [show (a :: g3) ++ f = a :: (g3 ++ f) from rfl]
        rw [drain_drop1 hlen (Or.inr hcond)]
        rw [List.tail_cons]
        rw [ih hga3]
        dsimp only
        simp only [List.length_cons]
      · have hcond : (a :: (g3 ++ f)).getD 0 0 ≠ 0x55 := by
          rw [List.getD_cons_zero]
          exact ha
        rw [show (a :: g3) ++ f = a :: (g3 ++ f) from rfl]
        rw [drain_drop1 hlen (Or.inl hcond)]
        rw [List.tail_cons]
        rw [ih hga3]
        dsimp only
        simp only [List.length_cons]
  refine ⟨main g hg, hdf, ?_⟩
  rw [main g hg, hdf]

/-- C8: Extraction-loop totality and buffer shrink invariant.  `drain` is
a total function; when at least 20 bytes are buffered each iteration
removes exactly 1 byte (resync) or exactly 20 bytes (consumed frame), the
loop stops exactly when fewer than 20 bytes remain (leaving them as the
residual buffer for the next append), the final residual is shorter than
20 bytes, and every input byte is accounted for as a drop, a packet byte,
or a residual byte. -/
theorem extraction_loop (b : List ℕ) :
    (b.length < 20 → drain b = ⟨[], b, 0⟩)
    ∧ (20 ≤ b.length →
        (b.getD 0 0 ≠ 0x55 ∨ b.getD 1 0 ∉ ([0x61, 0x71] : List ℕ)) →
        drain b = ⟨(drain b.tail).packets, (drain b.tail).residual,
                   (drain b.tail).drops + 1⟩
        ∧ b.tail.length + 1 = b.length)
    ∧ (20 ≤ b.length → b.getD 0 0 = 0x55 →
        b.getD 1 0 ∈ ([0x61, 0x71] : List ℕ) →
        drain b = ⟨b.take 20 :: (drain (b.drop 20)).packets,
                   (drain (b.drop 20)).residual, (drain (b.drop 20)).drops⟩
        ∧ (b.drop 20).length + 20 = b.length)
    ∧ (drain b).residual.length < 20
    ∧ b.length = (drain b).drops + 20 * (drain b).packets.length
        + (drain b).residual.length := by
  refine ⟨fun h => drain_short h, ?_, ?_, drain_residual_lt b, drain_conservation b⟩
  · intro h20 hcond
    refine ⟨drain_drop1 h20 hcond, ?_⟩
    rw [List.length_tail]
    omega
  · intro h20 h0 h1
    refine ⟨drain_frame h20 h0 h1, ?_⟩
    rw [List.length_drop]
    omega

theorem fragmentation_invariance_witness :
    (∀ f ∈ ([motionPacket, quatPacket] : List (List ℕ)), validFrame f)
    ∧ ([[0x55, 0x61, 0x00], motionPacket.drop 3 ++ [0x55],
        quatPacket.drop 1] : List (List ℕ)).flatten
        = ([motionPacket, quatPacket] : List (List ℕ)).flatten
    ∧ (feedChunks [] [[0x55, 0x61, 0x00], motionPacket.drop 3 ++ [0x55],
        quatPacket.drop 1]).1
      = (feedChunks [] [([motionPacket, quatPacket] : List (List ℕ)).flatten]).1 := by
  refine ⟨by decide, by decide, ?_⟩
  exact (fragmentation_invariance [motionPacket, quatPacket]
    [[0x55, 0x61, 0x00], motionPacket.drop 3 ++ [0x55], quatPacket.drop 1]
    (by decide) (by decide)).1

theorem resync_correct_witness :
    validFrame motionPacket
    ∧ drain ([0x01, 0x55] ++ motionPacket) = ⟨[motionPacket], [], 2⟩
    ∧ drain motionPacket = ⟨[motionPacket], [], 0⟩ := by
  have h := resync_correct [0x01, 0x55] motionPacket (by decide)
    (fun i hi => by
      have hi0 : i = 0 := by simp at hi; omega
      subst hi0
      decide)
  exact ⟨by decide, h.1, h.2.1⟩

theorem extraction_loop_witness :
    (drain (0x00 :: motionPacket)).residual.length < 20
    ∧ (0x00 :: motionPacket).length
      = (drain (0x00 :: motionPacket)).drops
        + 20 * (drain (0x00 :: motionPacket)).packets.length
        + (drain (0x00 :: motionPacket)).residual.length :=
  ⟨(extraction_loop (0x00 :: motionPacket)).2.2.2.1,
   (extraction_loop (0x00 :: motionPacket)).2.2.2.2⟩

end WitMotion
